import Mathlib

/-!
Verification of the Soochi deduplication-and-merge core.

This file gives a shallow embedding, in Lean 4, of the core logic of the
Soochi content-ingestion pipeline: the similarity resolver and count
reconciliation of soochi/services/vector_service.py, the Notion mirror of
soochi/services/notion_service.py, the URL deduplication filter of
soochi/services/url_service.py, the idea validation of
soochi/services/gemini_service.py and soochi/services/openai_service.py,
and the seen-URL ledger purge of soochi/utils/mongodb_client.py and
soochi/sqlite3_client.py.  Similarity scores and innovation scores, which
the source handles as floating-point numbers, are embedded as rationals:
the only operation performed on a score is a comparison against the
constant threshold 0.75, which is exact in both representations.
External collaborator calls (Pinecone, Notion, MongoDB) are embedded as
explicit state passing over in-memory stores; the success or failure of a
fallible external call is an explicit Boolean parameter.
-/

namespace Soochi

/-- Similarity threshold from soochi/constants.py: SIMILARITY_THRESHOLD = 0.75. -/
def SIMILARITY_THRESHOLD : ℚ := 3 / 4

/-- Retention window of the seen-URL ledger, in seconds: 7 days, from
timedelta(days=7) in soochi/utils/mongodb_client.py and
DATETIME('now', '-7 days') in soochi/sqlite3_client.py. -/
def RETENTION_SECONDS : ℤ := 7 * 86400

/-- Metadata dict stored with each vector-index entry, exactly the fields
written by VectorService.add_new_idea_to_db in
soochi/services/vector_service.py. -/
structure Metadata where
  title : String
  type : String
  problemStatement : String
  solution : String
  targetAudience : String
  innovationScore : ℚ
  potentialApplications : String
  prerequisites : String
  additionalNotes : String
  count : ℕ
deriving DecidableEq, Repr

/-- A validated idea record, the required fields of the pydantic model Idea
in soochi/models/idea.py. -/
structure Idea where
  title : String
  type : String
  problemStatement : String
  solution : String
  targetAudience : String
  innovationScore : ℚ
  potentialApplications : String
  prerequisites : String
  additionalNotes : String
deriving DecidableEq, Repr

/-- One record of the vector index: an id, its metadata and its vector,
as passed to index.upsert in VectorService.add_new_idea_to_db. -/
structure Entry where
  id : String
  metadata : Metadata
  values : List ℚ
deriving DecidableEq, Repr

/-- One match of a top-K similarity query result, as consumed by
VectorService.handle_similar_ideas: an id, a similarity score and the
stored metadata. -/
structure Match where
  id : String
  score : ℚ
  metadata : Metadata
deriving DecidableEq, Repr

/-- A Notion page as far as the core touches it: its Title property and its
Count property (soochi/services/notion_service.py). -/
structure Page where
  title : String
  count : ℕ
deriving DecidableEq, Repr

/-- Joint state of the two stores written by the reconciliation step: the
vector index (Pinecone) and the record store (Notion database). -/
structure MergeState where
  index : List Entry
  notion : List Page
deriving DecidableEq, Repr

namespace NotionService

/-- Embedding of NotionService.find_idea_in_notion: query the database for
pages whose Title equals the given title and return the first result. -/
def find_idea_in_notion (pages : List Page) (title : String) : Option Page :=
  pages.find? (fun p => p.title == title)

/-- Update the one page found by find_idea_in_notion: the source updates by
the returned page id, which is the first page whose title matches. -/
def update_first_title (pages : List Page) (title : String) (count : ℕ) : List Page :=
  match pages with
  | [] => []
  | p :: rest =>
      if p.title == title then { p with count := count } :: rest
      else p :: update_first_title rest title count

/-- Embedding of NotionService.update_idea_count: find the existing page by
title; if found, set its Count property to the given count and return true;
otherwise change nothing and return false.  The count written is exactly the
argument: the record store never recomputes it. -/
def update_idea_count (pages : List Page) (title : String) (count : ℕ) :
    List Page × Bool :=
  match find_idea_in_notion pages title with
  | some _ => (update_first_title pages title count, true)
  | none => (pages, false)

/-- Embedding of NotionService.create_idea: create a new page with the
idea's title and Count = 1 (the source also writes the descriptive
properties and optional URL metadata, which no claim depends on). -/
def create_idea (pages : List Page) (idea : Idea) : List Page :=
  pages ++ [{ title := idea.title, count := 1 }]

end NotionService

namespace VectorService

/-- Metadata dict built by VectorService.add_new_idea_to_db for a new idea:
all descriptive fields of the idea plus count = 1. -/
def mkMetadata (idea : Idea) : Metadata :=
  { title := idea.title
    type := idea.type
    problemStatement := idea.problemStatement
    solution := idea.solution
    targetAudience := idea.targetAudience
    innovationScore := idea.innovationScore
    potentialApplications := idea.potentialApplications
    prerequisites := idea.prerequisites
    additionalNotes := idea.additionalNotes
    count := 1 }

/-- Pinecone index.update with set_metadata: replace the metadata of the
record with the given id by the given metadata dict; the stored vector is
untouched (external collaborator contract of the vector index, spec section 6). -/
def index_update (idx : List Entry) (id_ : String) (md : Metadata) : List Entry :=
  idx.map (fun e => if e.id == id_ then { e with metadata := md } else e)

/-- Pinecone index.upsert of a single record: overwrite the record with the
same id when one exists, otherwise insert it (external collaborator contract
of the vector index, spec section 6). -/
def index_upsert (idx : List Entry) (e : Entry) : List Entry :=
  if idx.any (fun x => x.id == e.id) then
    idx.map (fun x => if x.id == e.id then e else x)
  else idx ++ [e]

/-- Effect of the merge branch of VectorService.handle_similar_ideas on one
over-threshold match: increment the count in the match's metadata dict,
write the whole updated dict back with index.update, and, when a Notion
service is attached, pass the very same new count to update_idea_count. -/
def apply_merge (notionAvail : Bool) (st : MergeState) (m : Match) : MergeState :=
  let newCount := m.metadata.count + 1
  let md := { m.metadata with count := newCount }
  let idx := index_update st.index m.id md
  let pages :=
    if notionAvail then (NotionService.update_idea_count st.notion md.title newCount).1
    else st.notion
  { index := idx, notion := pages }

/-- Embedding of VectorService.handle_similar_ideas: iterate the query
matches in order; on the first match whose score exceeds
SIMILARITY_THRESHOLD, perform the merge effect and return true; if no match
exceeds the threshold, return false with the state unchanged. -/
def handle_similar_ideas (notionAvail : Bool) (st : MergeState) :
    List Match → MergeState × Bool
  | [] => (st, false)
  | m :: rest =>
      if SIMILARITY_THRESHOLD < m.score then (apply_merge notionAvail st m, true)
      else handle_similar_ideas notionAvail st rest

/-- Externally visible operations attempted by the new-idea path, used to
state ordering: the vector-index upsert and the record-store create. -/
inductive Event where
  | upsertIndex (id_ : String)
  | notionCreate (title : String)
deriving DecidableEq, Repr

/-- Embedding of VectorService.add_new_idea_to_db.  The Boolean upsertOk
models whether the external index.upsert call succeeds; when it raises, the
handler logs and re-raises (raised = true) and the Notion create is never
reached.  When it succeeds and a Notion service is attached,
NotionService.create_idea runs next; create_idea catches its own errors
internally and never raises.  Returns the new state, the list of completed
external operations in order, and whether an exception propagated. -/
def add_new_idea_to_db (notionAvail upsertOk : Bool) (st : MergeState)
    (idea : Idea) (emb : List ℚ) : MergeState × List Event × Bool :=
  if upsertOk then
    let st1 : MergeState :=
      { st with index := index_upsert st.index ⟨idea.title, mkMetadata idea, emb⟩ }
    if notionAvail then
      ({ st1 with notion := NotionService.create_idea st1.notion idea },
        [Event.upsertIndex idea.title, Event.notionCreate idea.title], false)
    else (st1, [Event.upsertIndex idea.title], false)
  else (st, [], true)

/-- Per-idea record of what the external collaborators answer for one idea
of the batch: the embedding returned by ai_service.create_embedding (the
empty list models the falsy failure value), the matches returned by
index.query for this idea, and whether index.upsert succeeds should the new
path be taken.  The query result is supplied as an oracle: the external
nearest-neighbour search itself is out of scope. -/
structure IdeaEnv where
  idea : Idea
  embedding : List ℚ
  queryMatches : List Match
  upsertOk : Bool
deriving DecidableEq, Repr

/-- Per-idea outcome of the processing loop, used to state which ideas of a
batch were actually handled. -/
inductive LoopEvent where
  | skippedEmbedding (title : String)
  | mergedExisting (title : String)
  | addedNew (title : String)
  | raisedOnUpsert (title : String)
deriving DecidableEq, Repr

/-- Embedding of the loop of VectorService.process_idea_vectors: for each
idea in order, skip it when the embedding call returned a falsy value,
otherwise run handle_similar_ideas and, when no similar idea was found,
add_new_idea_to_db.  The loop body has no exception handler, so an
exception raised by add_new_idea_to_db propagates out of the loop: the
function then returns immediately with raised = true and the remaining
ideas are never reached.  Returns the final state, the per-idea outcomes in
order, and whether an exception propagated. -/
def process_idea_vectors (notionAvail : Bool) (st : MergeState) :
    List IdeaEnv → MergeState × List LoopEvent × Bool
  | [] => (st, [], false)
  | e :: rest =>
      if e.embedding.isEmpty then
        let p := process_idea_vectors notionAvail st rest
        (p.1, LoopEvent.skippedEmbedding e.idea.title :: p.2.1, p.2.2)
      else
        let hs := handle_similar_ideas notionAvail st e.queryMatches
        if hs.2 then
          let p := process_idea_vectors notionAvail hs.1 rest
          (p.1, LoopEvent.mergedExisting e.idea.title :: p.2.1, p.2.2)
        else
          let r := add_new_idea_to_db notionAvail e.upsertOk hs.1 e.idea e.embedding
          if r.2.2 then (r.1, [LoopEvent.raisedOnUpsert e.idea.title], true)
          else
            let p := process_idea_vectors notionAvail r.1 rest
            (p.1, LoopEvent.addedNew e.idea.title :: p.2.1, p.2.2)

end VectorService

namespace URLService

/-- Loop of URLService.deduplicate_urls: walk the links keeping a set of
hashes already seen in this batch; keep a URL only when its hash is new,
then record the hash.  The repository file defining hash_url
(soochi/utils/utils.py) is not part of the sources, so the fingerprint
function is a parameter throughout. -/
def dedupGo (hash_url : String → String) (seen : List String) :
    List String → List String
  | [] => []
  | url :: rest =>
      let h := hash_url url
      if h ∈ seen then dedupGo hash_url seen rest
      else url :: dedupGo hash_url (h :: seen) rest

/-- Embedding of URLService.deduplicate_urls: remove intra-batch duplicate
URLs keyed by hash_url, keeping the first occurrence, preserving order. -/
def deduplicate_urls (hash_url : String → String) (feed_links : List String) :
    List String :=
  dedupGo hash_url [] feed_links

/-- Embedding of URLService.deduplicate_urls_from_all_urls: keep the URLs
whose hash is not among the seen-URL hashes fetched from the ledger.  The
ledger is only read; the function neither takes nor returns ledger state. -/
def deduplicate_urls_from_all_urls (hash_url : String → String)
    (new_urls : List String) (seen_urls_hash : List String) : List String :=
  new_urls.filter (fun url => decide (hash_url url ∉ seen_urls_hash))

/-- Composition applied by ContentProcessingPipeline.process: intra-batch
deduplication followed by removal of ledger-seen URLs. -/
def pipeline_filter (hash_url : String → String) (feed_links : List String)
    (seen_urls_hash : List String) : List String :=
  deduplicate_urls_from_all_urls hash_url (deduplicate_urls hash_url feed_links)
    seen_urls_hash

/-- Modelled from the spec (section 4.1), for comparison with the code:
keep the first occurrence per fingerprint, drop every URL whose fingerprint
is in the ledger, preserve relative order. -/
def filter_contract (hash_url : String → String) (ledger : List String) :
    List String → List String
  | [] => []
  | u :: rest =>
      if hash_url u ∈ ledger then filter_contract hash_url ledger rest
      else u :: filter_contract hash_url ledger
        (rest.filter (fun v => decide (hash_url v ≠ hash_url u)))
termination_by urls => urls.length
decreasing_by
  · simp only [List.length_cons]; omega
  · simp only [List.length_cons]
    exact Nat.lt_succ_of_le (List.length_filter_le _ _)

end URLService

namespace MongoDBClient

/-- One document of the seen_urls collection, as inserted by
MongoDBClient.bulk_insert_seen_urls in soochi/utils/mongodb_client.py.
Timestamps are in seconds. -/
structure SeenUrlRecord where
  url_hash : String
  url : String
  title : String
  created_at : ℤ
deriving DecidableEq, Repr

/-- Embedding of MongoDBClient.fetch_seen_urls_hash: project every document
of seen_urls to its url_hash. -/
def fetch_seen_urls_hash (records : List SeenUrlRecord) : List String :=
  records.map (fun r => r.url_hash)

/-- Embedding of MongoDBClient.bulk_delete_seen_urls: delete_many of the
documents whose created_at is strictly below now minus seven days; the
whole document, fingerprint included, is removed. -/
def bulk_delete_seen_urls (now : ℤ) (records : List SeenUrlRecord) :
    List SeenUrlRecord :=
  records.filter (fun r => decide (¬ r.created_at < now - RETENTION_SECONDS))

end MongoDBClient

namespace SQLiteClient

/-- One row of the seen_urls table of soochi/sqlite3_client.py. -/
structure SeenUrlRow where
  url_hash : String
  created_at : ℤ
deriving DecidableEq, Repr

/-- Embedding of SQLiteClient.fetch_seen_urls_hash: SELECT url_hash FROM
seen_urls. -/
def fetch_seen_urls_hash (rows : List SeenUrlRow) : List String :=
  rows.map (fun r => r.url_hash)

/-- Embedding of SQLiteClient.bulk_delete_seen_urls: DELETE FROM seen_urls
WHERE created_at is strictly below now minus seven days. -/
def bulk_delete_seen_urls (now : ℤ) (rows : List SeenUrlRow) :
    List SeenUrlRow :=
  rows.filter (fun r => decide (¬ r.created_at < now - RETENTION_SECONDS))

end SQLiteClient

/-- A raw structured record as produced by the AI extraction step before
validation: each required field of the pydantic Idea model may be absent. -/
structure RawIdea where
  title : Option String
  type : Option String
  problemStatement : Option String
  solution : Option String
  targetAudience : Option String
  innovationScore : Option ℚ
  potentialApplications : Option String
  prerequisites : Option String
  additionalNotes : Option String
  url_hash : Option String
deriving DecidableEq, Repr

/-- Pydantic validation of one Idea (soochi/models/idea.py): succeeds only
when every required field is present. -/
def validate_idea (r : RawIdea) : Option Idea :=
  r.title.bind fun t =>
  r.type.bind fun ty =>
  r.problemStatement.bind fun ps =>
  r.solution.bind fun so =>
  r.targetAudience.bind fun ta =>
  r.innovationScore.bind fun sc =>
  r.potentialApplications.bind fun pa =>
  r.prerequisites.bind fun pr =>
  r.additionalNotes.map fun an =>
    { title := t, type := ty, problemStatement := ps, solution := so
      targetAudience := ta, innovationScore := sc
      potentialApplications := pa, prerequisites := pr
      additionalNotes := an }

/-- The raw record corresponding to a validated idea with its url hash
attached (model_dump of the pydantic Idea after setting url_hash). -/
def rawOfIdea (i : Idea) (h : String) : RawIdea :=
  { title := some i.title, type := some i.type
    problemStatement := some i.problemStatement, solution := some i.solution
    targetAudience := some i.targetAudience
    innovationScore := some i.innovationScore
    potentialApplications := some i.potentialApplications
    prerequisites := some i.prerequisites
    additionalNotes := some i.additionalNotes, url_hash := some h }

/-- Parsed JSON body of a Gemini response, before pydantic validation: the
optional output list of raw idea records (soochi/models/idea.py, Response). -/
structure RawResponse where
  endReason : Option String
  output : Option (List RawIdea)
deriving DecidableEq, Repr

/-- Validation of a list of raw records, all-or-nothing: pydantic raises on
the first invalid element, failing the whole list. -/
def validate_ideas : List RawIdea → Option (List Idea)
  | [] => some []
  | r :: rest =>
      (validate_idea r).bind fun i =>
        (validate_ideas rest).map fun tl => i :: tl

/-- Pydantic validation of a whole Response: every record of the output
list must validate, or the whole construction raises. -/
def validate_response (rr : RawResponse) : Option (Option (List Idea)) :=
  match rr.output with
  | none => some none
  | some l => (validate_ideas l).map some

namespace GeminiService

/-- Embedding of the parsing half of GeminiService.process_content (the
model call itself is external).  Input is the parsed JSON of the model
response, or none when json.loads raised.  A parse or validation error is
caught and an empty list returned; on success every validated idea gets the
url hash attached and all are returned. -/
def process_content (urlHash : String) (parsed : Option RawResponse) :
    List RawIdea :=
  match parsed with
  | none => []
  | some rr =>
      match validate_response rr with
      | none => []
      | some none => []
      | some (some ideas) => ideas.map (fun i => rawOfIdea i urlHash)

end GeminiService

namespace OpenAIService

/-- Content of one successfully parsed JSONL result line of an OpenAI batch
job: the url hash extracted from the custom id and the optional output list
of raw records. -/
structure BatchLine where
  cid_hash : String
  output : Option (List RawIdea)
deriving DecidableEq, Repr

/-- Embedding of the per-line loop of OpenAIService.save_and_parse_results.
Input is the parse outcome of each line: none models any exception while
digging out the content (json.loads, missing keys), which is logged and the
line dropped.  For a parsed line, every record of its output list is
appended as-is with the url hash attached; no field validation happens. -/
def save_and_parse_results : List (Option BatchLine) → List RawIdea
  | [] => []
  | none :: rest => save_and_parse_results rest
  | some b :: rest =>
      (match b.output with
        | none => []
        | some rs => rs.map (fun r => { r with url_hash := some b.cid_hash }))
      ++ save_and_parse_results rest

end OpenAIService

/-- Sample stored metadata used to instantiate theorems on concrete inputs,
following the scenario of spec section 8. -/
def mdSample : Metadata :=
  { title := "Smart Home AI Router", type := "SaaS", problemStatement := "p"
    solution := "s", targetAudience := "aud", innovationScore := 7
    potentialApplications := "apps", prerequisites := "pre"
    additionalNotes := "notes", count := 1 }

/-- Sample fresh idea (spec section 8 scenario). -/
def ideaSample : Idea :=
  { title := "Edge AI Router", type := "SaaS", problemStatement := "p2"
    solution := "s2", targetAudience := "aud2", innovationScore := 8
    potentialApplications := "apps2", prerequisites := "pre2"
    additionalNotes := "notes2" }

/-- Sample query match with similarity 0.81, above the threshold. -/
def matchSample : Match :=
  { id := "Smart Home AI Router", score := 81 / 100, metadata := mdSample }

/-- Sample stored vector-index entry. -/
def entrySample : Entry :=
  { id := "Smart Home AI Router", metadata := mdSample, values := [1, 0] }

/-- Sample Notion page mirroring entrySample. -/
def pageSample : Page := { title := "Smart Home AI Router", count := 1 }

/-- Sample joint store state: one stored idea, mirrored in Notion. -/
def stSample : MergeState := { index := [entrySample], notion := [pageSample] }

/-- Sample stored entry whose id collides with the title of ideaSample and
which carries an accumulated occurrence count of 5. -/
def entryClash : Entry :=
  { id := "Edge AI Router"
    metadata := { mdSample with title := "Edge AI Router", count := 5 }
    values := [0, 1] }

/-- Sample store state holding entryClash. -/
def stClash : MergeState := { index := [entryClash], notion := [] }

/-- Sample current time, in seconds: 100 seconds past the retention window. -/
def nowSample : ℤ := 7 * 86400 + 100

/-- Sample Mongo ledger record whose age is exactly the retention window. -/
def recBoundary : MongoDBClient.SeenUrlRecord :=
  { url_hash := "hb", url := "ub", title := "tb", created_at := 100 }

/-- Sample Mongo ledger record strictly older than the retention window. -/
def recOld : MongoDBClient.SeenUrlRecord :=
  { url_hash := "ho", url := "uo", title := "to", created_at := 99 }

/-- Sample SQLite ledger row whose age is exactly the retention window. -/
def rowBoundary : SQLiteClient.SeenUrlRow := { url_hash := "hb", created_at := 100 }

/-- Sample SQLite ledger row strictly older than the retention window. -/
def rowOld : SQLiteClient.SeenUrlRow := { url_hash := "ho", created_at := 99 }

/-- Sample raw extraction record with every required field absent. -/
def rawBad : RawIdea :=
  { title := none, type := none, problemStatement := none, solution := none
    targetAudience := none, innovationScore := none
    potentialApplications := none, prerequisites := none
    additionalNotes := none, url_hash := none }

/-- Sample per-idea environment whose vector-index upsert fails. -/
def envFail : VectorService.IdeaEnv :=
  { idea := ideaSample, embedding := [1], queryMatches := [], upsertOk := false }

/-- Sample per-idea environment that succeeds on the new path. -/
def envGood : VectorService.IdeaEnv :=
  { idea := { ideaSample with title := "Good Idea" }, embedding := [1]
    queryMatches := [], upsertOk := true }

/- Helper lemmas. -/

theorem find_update_first_title (pages : List Page) (t : String) (c : ℕ)
    (p : Page) (h : NotionService.find_idea_in_notion pages t = some p) :
    NotionService.find_idea_in_notion (NotionService.update_first_title pages t c) t
      = some { p with count := c } := by
  induction pages with
  | nil => simp [NotionService.find_idea_in_notion] at h
  | cons q rest ih =>
      rcases hq : (q.title == t) with _ | _
      · simp only [NotionService.find_idea_in_notion, List.find?_cons, hq] at h
        simp only [NotionService.update_first_title, hq, Bool.false_eq_true,
          if_false, NotionService.find_idea_in_notion, List.find?_cons]
        exact ih h
      · simp only [NotionService.find_idea_in_notion, List.find?_cons, hq] at h
        cases h
        simp [NotionService.update_first_title, NotionService.find_idea_in_notion,
          List.find?_cons, hq]

theorem handle_similar_ideas_skip (na : Bool) (st : MergeState)
    (pre ms : List Match) (hpre : ∀ x ∈ pre, ¬ SIMILARITY_THRESHOLD < x.score) :
    VectorService.handle_similar_ideas na st (pre ++ ms) =
      VectorService.handle_similar_ideas na st ms := by
  induction pre with
  | nil => rfl
  | cons x rest ih =>
      have hx : ¬ SIMILARITY_THRESHOLD < x.score := hpre x (by simp)
      simp only [List.cons_append, VectorService.handle_similar_ideas, if_neg hx]
      exact ih (fun y hy => hpre y (by simp [hy]))

/-- C2: the Similarity Resolver iterates the query matches in the order
returned by the index; the outcome is the merge effect on the first match
whose score is strictly greater than 0.75, and "new" exactly when no match
is over the threshold; hence whenever an over-threshold match is present,
the outcome is merge (true), never new. -/
theorem similarity_resolver_first_over_threshold (na : Bool) (st : MergeState)
    (ms : List Match) :
    (VectorService.handle_similar_ideas na st ms =
      match ms.find? (fun m => decide (SIMILARITY_THRESHOLD < m.score)) with
      | some m => (VectorService.apply_merge na st m, true)
      | none => (st, false)) ∧
    ((∃ m ∈ ms, SIMILARITY_THRESHOLD < m.score) →
      (VectorService.handle_similar_ideas na st ms).2 = true) := by
  have key : VectorService.handle_similar_ideas na st ms =
      match ms.find? (fun m => decide (SIMILARITY_THRESHOLD < m.score)) with
      | some m => (VectorService.apply_merge na st m, true)
      | none => (st, false) := by
    induction ms with
    | nil => rfl
    | cons m rest ih =>
        by_cases h : SIMILARITY_THRESHOLD < m.score
        · simp [VectorService.handle_similar_ideas, List.find?_cons, h]
        · simp [VectorService.handle_similar_ideas, List.find?_cons, h, ih]
  refine ⟨key, fun hex => ?_⟩
  have hsome : (ms.find? (fun m => decide (SIMILARITY_THRESHOLD < m.score))).isSome := by
    rw [List.find?_isSome]
    rcases hex with ⟨m, hm, hs⟩
    exact ⟨m, hm, by simpa using hs⟩
  obtain ⟨m0, hm0⟩ := Option.isSome_iff_exists.mp hsome
  rw [key, hm0]

/-- C2 witness: on the concrete store with one entry and a single query
match of score 0.81, the resolver reports merge, not new. -/
theorem similarity_resolver_first_over_threshold_witness :
    (VectorService.handle_similar_ideas true stSample [matchSample]).2 = true :=
  (similarity_resolver_first_over_threshold true stSample [matchSample]).2
    ⟨matchSample, by simp, by norm_num [SIMILARITY_THRESHOLD, matchSample]⟩

/-- C1: on the merge path, when the first over-threshold match carries
stored count N, reconciliation writes back to the vector index the full
metadata dict of the match with count exactly N + 1 (the stored vector is
untouched), and the record store's mirrored page is set to that same value
N + 1, passed through rather than recomputed. -/
theorem merge_count_reconciliation (st : MergeState) (pre rest : List Match)
    (m : Match) (N : ℕ) (p : Page)
    (hpre : ∀ x ∈ pre, ¬ SIMILARITY_THRESHOLD < x.score)
    (hm : SIMILARITY_THRESHOLD < m.score)
    (hN : m.metadata.count = N)
    (hp : NotionService.find_idea_in_notion st.notion m.metadata.title = some p) :
    (VectorService.handle_similar_ideas true st (pre ++ m :: rest)).2 = true ∧
    (∀ e ∈ (VectorService.handle_similar_ideas true st (pre ++ m :: rest)).1.index,
      e.id = m.id → e.metadata = { m.metadata with count := N + 1 }) ∧
    (∀ e0 ∈ st.index, e0.id = m.id →
      ∃ e ∈ (VectorService.handle_similar_ideas true st (pre ++ m :: rest)).1.index,
        e.id = m.id ∧ e.metadata.count = N + 1 ∧ e.values = e0.values) ∧
    NotionService.find_idea_in_notion
      (VectorService.handle_similar_ideas true st (pre ++ m :: rest)).1.notion
      m.metadata.title = some { p with count := N + 1 } := by
  have hrun : VectorService.handle_similar_ideas true st (pre ++ m :: rest) =
      (VectorService.apply_merge true st m, true) := by
    rw [handle_similar_ideas_skip true st pre (m :: rest) hpre]
    simp [VectorService.handle_similar_ideas, if_pos hm]
  rw [hrun]
  subst hN
  refine ⟨rfl, ?_, ?_, ?_⟩
  · intro e he hid
    simp only [VectorService.apply_merge, VectorService.index_update,
      List.mem_map] at he
    rcases he with ⟨a, _, rfl⟩
    by_cases ha : a.id = m.id
    · simp [ha]
    · rw [if_neg (by simpa using ha)] at hid
      exact absurd hid ha
  · intro e0 he0 hid
    refine ⟨{ e0 with metadata := { m.metadata with count := m.metadata.count + 1 } }, ?_, ?_, rfl, rfl⟩
    · simp only [VectorService.apply_merge, VectorService.index_update,
        List.mem_map]
      exact ⟨e0, he0, by simp [hid]⟩
    · exact hid
  · simp only [VectorService.apply_merge, NotionService.update_idea_count, hp]
    exact find_update_first_title st.notion m.metadata.title
      (m.metadata.count + 1) p hp

/-- C1 witness: merging the 0.81-scoring match against the concrete store
reports merge and sets the mirrored Notion count to 2, the same value
written to the vector index. -/
theorem merge_count_reconciliation_witness :
    (VectorService.handle_similar_ideas true stSample ([] ++ matchSample :: [])).2
      = true ∧
    NotionService.find_idea_in_notion
      (VectorService.handle_similar_ideas true stSample
        ([] ++ matchSample :: [])).1.notion
      matchSample.metadata.title = some { pageSample with count := 2 } := by
  have h := merge_count_reconciliation stSample [] [] matchSample 1 pageSample
    (by simp) (by norm_num [SIMILARITY_THRESHOLD, matchSample]) rfl (by rfl)
  exact ⟨h.1, h.2.2.2⟩

/-- C3: on the new path, if the vector-index upsert raises, no record-store
create occurs (the Notion state is unchanged and no create operation was
attempted) and the error propagates to the caller instead of being
swallowed; conversely whenever no error propagates, the first completed
operation is the vector-index upsert, and the record-store create, when
attempted, comes after it. -/
theorem new_path_failure_atomicity (na ok : Bool) (st : MergeState)
    (idea : Idea) (emb : List ℚ) :
    (ok = false →
      (VectorService.add_new_idea_to_db na ok st idea emb).2.2 = true ∧
      (VectorService.add_new_idea_to_db na ok st idea emb).1.notion = st.notion ∧
      ∀ t, VectorService.Event.notionCreate t ∉
        (VectorService.add_new_idea_to_db na ok st idea emb).2.1) ∧
    ((VectorService.add_new_idea_to_db na ok st idea emb).2.2 = false →
      (VectorService.add_new_idea_to_db na ok st idea emb).2.1 =
        [VectorService.Event.upsertIndex idea.title] ∨
      (VectorService.add_new_idea_to_db na ok st idea emb).2.1 =
        [VectorService.Event.upsertIndex idea.title,
          VectorService.Event.notionCreate idea.title]) := by
  cases ok
  · simp [VectorService.add_new_idea_to_db]
  · cases na <;> simp [VectorService.add_new_idea_to_db]

/-- C3 witness: with a failing upsert on a concrete idea and store, the
error propagates, the Notion store is untouched, and no create was
attempted. -/
theorem new_path_failure_atomicity_witness :
    (VectorService.add_new_idea_to_db true false stSample ideaSample [1]).2.2
      = true ∧
    (VectorService.add_new_idea_to_db true false stSample ideaSample [1]).1.notion
      = stSample.notion ∧
    ∀ t, VectorService.Event.notionCreate t ∉
      (VectorService.add_new_idea_to_db true false stSample ideaSample [1]).2.1 :=
  (new_path_failure_atomicity true false stSample ideaSample [1]).1 rfl

/-- C9: the new path uses the idea's title as the vector-index id, so when
the store already holds an entry under that id, a successful upsert silently
(no error propagates) replaces that entry in place (the index does not
grow): afterwards every entry under that id carries the new idea's full
metadata with occurrence count reset to 1 and the new idea's vector, losing
the prior count. -/
theorem title_collision_overwrite (na : Bool) (st : MergeState) (idea : Idea)
    (emb : List ℚ) (e0 : Entry) (he0 : e0 ∈ st.index)
    (hid : e0.id = idea.title) :
    (VectorService.add_new_idea_to_db na true st idea emb).2.2 = false ∧
    (VectorService.add_new_idea_to_db na true st idea emb).1.index.length
      = st.index.length ∧
    ∀ e ∈ (VectorService.add_new_idea_to_db na true st idea emb).1.index,
      e.id = idea.title →
        e.metadata = VectorService.mkMetadata idea ∧
        e.metadata.count = 1 ∧ e.values = emb := by
  have hidx : (VectorService.add_new_idea_to_db na true st idea emb).1.index =
      VectorService.index_upsert st.index ⟨idea.title, VectorService.mkMetadata idea, emb⟩ := by
    cases na <;> rfl
  have hraised : (VectorService.add_new_idea_to_db na true st idea emb).2.2 = false := by
    cases na <;> rfl
  have hany : st.index.any (fun x => x.id == idea.title) = true := by
    rw [List.any_eq_true]
    exact ⟨e0, he0, by simpa using hid⟩
  refine ⟨hraised, ?_, ?_⟩
  · rw [hidx]
    simp only [VectorService.index_upsert, hany, if_true, List.length_map]
  · intro e he hide
    rw [hidx] at he
    simp only [VectorService.index_upsert, hany, if_true, List.mem_map] at he
    rcases he with ⟨a, _, rfl⟩
    by_cases ha : a.id = idea.title
    · simp [ha, VectorService.mkMetadata]
    · rw [if_neg (by simpa using ha)] at hide
      exact absurd hide ha

/-- C9 witness: inserting ideaSample while an entry with the same id and
count 5 is stored overwrites that entry: the index keeps one entry and its
count becomes 1. -/
theorem title_collision_overwrite_witness :
    (VectorService.add_new_idea_to_db true true stClash ideaSample [1]).2.2
      = false ∧
    (VectorService.add_new_idea_to_db true true stClash ideaSample [1]).1.index.length
      = stClash.index.length ∧
    ∀ e ∈ (VectorService.add_new_idea_to_db true true stClash ideaSample [1]).1.index,
      e.id = ideaSample.title →
        e.metadata = VectorService.mkMetadata ideaSample ∧
        e.metadata.count = 1 ∧ e.values = [1] :=
  title_collision_overwrite true stClash ideaSample [1] entryClash
    (by simp [stClash]) rfl

/-- C7: in both ledger implementations, the purge retains exactly the
records whose creation timestamp is not strictly older than the retention
window of 7 days (so it deletes exactly the strictly older ones), and a
record whose age equals the boundary exactly is retained. -/
theorem ledger_purge_boundary (now : ℤ)
    (records : List MongoDBClient.SeenUrlRecord)
    (rows : List SQLiteClient.SeenUrlRow)
    (r : MongoDBClient.SeenUrlRecord) (q : SQLiteClient.SeenUrlRow) :
    (r ∈ MongoDBClient.bulk_delete_seen_urls now records ↔
      r ∈ records ∧ ¬ r.created_at < now - RETENTION_SECONDS) ∧
    (r ∈ records → r.created_at = now - RETENTION_SECONDS →
      r ∈ MongoDBClient.bulk_delete_seen_urls now records) ∧
    (q ∈ SQLiteClient.bulk_delete_seen_urls now rows ↔
      q ∈ rows ∧ ¬ q.created_at < now - RETENTION_SECONDS) ∧
    (q ∈ rows → q.created_at = now - RETENTION_SECONDS →
      q ∈ SQLiteClient.bulk_delete_seen_urls now rows) := by
  refine ⟨?_, ?_, ?_, ?_⟩
  · simp [MongoDBClient.bulk_delete_seen_urls, List.mem_filter]
  · intro hr hb
    simp only [MongoDBClient.bulk_delete_seen_urls, List.mem_filter,
      decide_eq_true_eq]
    exact ⟨hr, by omega⟩
  · simp [SQLiteClient.bulk_delete_seen_urls, List.mem_filter]
  · intro hq hb
    simp only [SQLiteClient.bulk_delete_seen_urls, List.mem_filter,
      decide_eq_true_eq]
    exact ⟨hq, by omega⟩

/-- C7 witness: with the clock 100 seconds past the window, a record created
at second 100 (age exactly 7 days) survives the purge in both
implementations, while membership of the strictly older record created at
second 99 is characterized as deleted. -/
theorem ledger_purge_boundary_witness :
    recBoundary ∈ MongoDBClient.bulk_delete_seen_urls nowSample
      [recOld, recBoundary] ∧
    rowBoundary ∈ SQLiteClient.bulk_delete_seen_urls nowSample
      [rowOld, rowBoundary] ∧
    recOld ∉ MongoDBClient.bulk_delete_seen_urls nowSample
      [recOld, recBoundary] := by
  have h := ledger_purge_boundary nowSample [recOld, recBoundary]
    [rowOld, rowBoundary] recBoundary rowBoundary
  have h2 := ledger_purge_boundary nowSample [recOld, recBoundary]
    [rowOld, rowBoundary] recOld rowOld
  refine ⟨h.2.1 (by simp) (by decide), h.2.2.2 (by simp) (by decide),
    fun hmem => ?_⟩
  exact (h2.1.mp hmem).2 (by decide)

/-- C10: in both ledger implementations the purge deletes whole records,
fingerprint included: when every stored record carrying a given fingerprint
is strictly older than the retention window, that fingerprint is absent
from the hashes fetched after the purge, and a URL with that fingerprint
passes the seen-URL filter again (it is returned for reprocessing). -/
theorem purge_removes_fingerprints (hash_url : String → String) (now : ℤ)
    (records : List MongoDBClient.SeenUrlRecord)
    (rows : List SQLiteClient.SeenUrlRow) (h : String) (url : String) :
    ((∀ r2 ∈ records, r2.url_hash = h →
        r2.created_at < now - RETENTION_SECONDS) →
      h ∉ MongoDBClient.fetch_seen_urls_hash
        (MongoDBClient.bulk_delete_seen_urls now records) ∧
      (hash_url url = h →
        URLService.deduplicate_urls_from_all_urls hash_url [url]
          (MongoDBClient.fetch_seen_urls_hash
            (MongoDBClient.bulk_delete_seen_urls now records)) = [url])) ∧
    ((∀ q2 ∈ rows, q2.url_hash = h →
        q2.created_at < now - RETENTION_SECONDS) →
      h ∉ SQLiteClient.fetch_seen_urls_hash
        (SQLiteClient.bulk_delete_seen_urls now rows) ∧
      (hash_url url = h →
        URLService.deduplicate_urls_from_all_urls hash_url [url]
          (SQLiteClient.fetch_seen_urls_hash
            (SQLiteClient.bulk_delete_seen_urls now rows)) = [url])) := by
  constructor
  · intro hall
    have hnot : h ∉ MongoDBClient.fetch_seen_urls_hash
        (MongoDBClient.bulk_delete_seen_urls now records) := by
      simp only [MongoDBClient.fetch_seen_urls_hash,
        MongoDBClient.bulk_delete_seen_urls, List.mem_map, List.mem_filter,
        decide_eq_true_eq, not_exists]
      rintro r ⟨⟨hr, hkept⟩, rfl⟩
      exact hkept (hall r hr rfl)
    refine ⟨hnot, fun hh => ?_⟩
    simp only [URLService.deduplicate_urls_from_all_urls, List.filter_cons,
      List.filter_nil, hh, decide_eq_true_eq]
    simp [hnot]
  · intro hall
    have hnot : h ∉ SQLiteClient.fetch_seen_urls_hash
        (SQLiteClient.bulk_delete_seen_urls now rows) := by
      simp only [SQLiteClient.fetch_seen_urls_hash,
        SQLiteClient.bulk_delete_seen_urls, List.mem_map, List.mem_filter,
        decide_eq_true_eq, not_exists]
      rintro q ⟨⟨hq, hkept⟩, rfl⟩
      exact hkept (hall q hq rfl)
    refine ⟨hnot, fun hh => ?_⟩
    simp only [URLService.deduplicate_urls_from_all_urls, List.filter_cons,
      List.filter_nil, hh, decide_eq_true_eq]
    simp [hnot]

/-- C10 witness: after purging a ledger whose only record under fingerprint
ho is strictly older than the window, ho is gone from both implementations
and a URL fingerprinting to ho passes the filter again. -/
theorem purge_removes_fingerprints_witness :
    ("ho" ∉ MongoDBClient.fetch_seen_urls_hash
      (MongoDBClient.bulk_delete_seen_urls nowSample [recOld, recBoundary]) ∧
      (URLService.deduplicate_urls_from_all_urls (fun _ => "ho") ["u"]
        (MongoDBClient.fetch_seen_urls_hash
          (MongoDBClient.bulk_delete_seen_urls nowSample
            [recOld, recBoundary])) = ["u"])) ∧
    ("ho" ∉ SQLiteClient.fetch_seen_urls_hash
      (SQLiteClient.bulk_delete_seen_urls nowSample [rowOld, rowBoundary]) ∧
      (URLService.deduplicate_urls_from_all_urls (fun _ => "ho") ["u"]
        (SQLiteClient.fetch_seen_urls_hash
          (SQLiteClient.bulk_delete_seen_urls nowSample
            [rowOld, rowBoundary])) = ["u"])) := by
  have h := purge_removes_fingerprints (fun _ => "ho") nowSample
    [recOld, recBoundary] [rowOld, rowBoundary] "ho" "u"
  have h1 := h.1 (by decide)
  have h2 := h.2 (by decide)
  exact ⟨⟨h1.1, h1.2 rfl⟩, ⟨h2.1, h2.2 rfl⟩⟩

/-- C5 counterexample: in the OpenAI batch path, a parsed result line whose
record is missing every required field is appended to the downstream idea
list as-is (only the url hash is attached): the record is not rejected, so
the claim that every record missing a required field is excluded from
downstream processing fails on this input. -/
theorem normalizer_counterexample :
    OpenAIService.save_and_parse_results
        [some { cid_hash := "h1", output := some [rawBad] }]
      = [{ rawBad with url_hash := some "h1" }] ∧
    validate_idea { rawBad with url_hash := some "h1" } = none := by
  exact ⟨rfl, rfl⟩

theorem validate_ideas_none {l : List RawIdea} {r : RawIdea} (hrl : r ∈ l)
    (hrv : validate_idea r = none) : validate_ideas l = none := by
  induction l with
  | nil => simp at hrl
  | cons a t ih =>
      rcases List.mem_cons.mp hrl with rfl | hmem
      · simp [validate_ideas, hrv]
      · rcases ha : validate_idea a with _ | i
        · simp [validate_ideas, ha]
        · simp [validate_ideas, ha, ih hmem]

/-- C5 amended: in the synchronous Gemini path, an unparseable response or
a response containing any record missing a required field is rejected
without a fatal error (the function totally returns the empty list,
excluding all of that response's records from downstream processing), and
every record the Gemini path does emit downstream has all required fields;
the OpenAI batch path performs no such field validation, and no count of
rejected records is reported (the pipeline only logs the accepted count). -/
theorem normalizer_rejection_amended (h : String) (parsed : Option RawResponse) :
    (∀ r ∈ GeminiService.process_content h parsed, (validate_idea r).isSome = true) ∧
    (∀ rr l, parsed = some rr → rr.output = some l →
      (∃ r ∈ l, validate_idea r = none) →
      GeminiService.process_content h parsed = []) := by
  constructor
  · intro r hr
    rcases parsed with _ | rr
    · simp [GeminiService.process_content] at hr
    · simp only [GeminiService.process_content] at hr
      rcases hv : validate_response rr with _ | ov
      · rw [hv] at hr; simp at hr
      · rw [hv] at hr
        rcases ov with _ | ideas
        · simp at hr
        · simp only [List.mem_map] at hr
          rcases hr with ⟨i, _, rfl⟩
          rfl
  · rintro rr l rfl hout ⟨r, hrl, hrv⟩
    simp [GeminiService.process_content, validate_response, hout,
      validate_ideas_none hrl hrv]

/-- C5 amended witness: a concrete Gemini response holding one record with
all required fields absent is rejected wholesale: the path emits no record
downstream and raises nothing. -/
theorem normalizer_rejection_amended_witness :
    GeminiService.process_content "h1"
      (some { endReason := none, output := some [rawBad] }) = [] :=
  (normalizer_rejection_amended "h1"
      (some { endReason := none, output := some [rawBad] })).2
    { endReason := none, output := some [rawBad] } [rawBad] rfl rfl
    ⟨rawBad, by simp, rfl⟩

/-- C6 counterexample: a concrete batch of two ideas in which the first
idea's vector-index upsert fails: the loop raises and stops, the second
idea is never processed (no loop outcome for it, and no entry under its
title reaches the index), so the claim that the remaining ideas of the
batch are still processed fails on this input. -/
theorem batch_abort_counterexample :
    (VectorService.process_idea_vectors true stSample [envFail, envGood]).2.1
      = [VectorService.LoopEvent.raisedOnUpsert "Edge AI Router"] ∧
    (VectorService.process_idea_vectors true stSample [envFail, envGood]).2.2
      = true ∧
    VectorService.LoopEvent.addedNew "Good Idea" ∉
      (VectorService.process_idea_vectors true stSample [envFail, envGood]).2.1 ∧
    ∀ e ∈ (VectorService.process_idea_vectors true stSample [envFail, envGood]).1.index,
      e.id ≠ "Good Idea" := by
  decide

/-- C6 amended: an embedding failure is isolated per idea (the idea is
skipped and the loop continues with the rest), but a vector-index write
failure on one idea raises out of the loop, aborting not only that idea's
reconciliation but the processing of every remaining idea of the batch. -/
theorem vector_failure_isolation_amended (na : Bool) (st : MergeState)
    (e : VectorService.IdeaEnv) (rest : List VectorService.IdeaEnv) :
    (e.embedding = [] →
      VectorService.process_idea_vectors na st (e :: rest) =
        ((VectorService.process_idea_vectors na st rest).1,
          VectorService.LoopEvent.skippedEmbedding e.idea.title ::
            (VectorService.process_idea_vectors na st rest).2.1,
          (VectorService.process_idea_vectors na st rest).2.2)) ∧
    (e.embedding ≠ [] →
      (VectorService.handle_similar_ideas na st e.queryMatches).2 = false →
      e.upsertOk = false →
      VectorService.process_idea_vectors na st (e :: rest) =
        ((VectorService.handle_similar_ideas na st e.queryMatches).1,
          [VectorService.LoopEvent.raisedOnUpsert e.idea.title], true)) := by
  constructor
  · intro hemb
    simp [VectorService.process_idea_vectors, hemb]
  · intro hemb hmerge hok
    have hne : e.embedding.isEmpty = false := by
      simpa [List.isEmpty_iff] using hemb
    simp [VectorService.process_idea_vectors, hne, hmerge, hok,
      VectorService.add_new_idea_to_db]

/-- C6 amended witness: on the concrete failing environment followed by a
healthy one, the loop returns immediately with the raised flag set. -/
theorem vector_failure_isolation_amended_witness :
    VectorService.process_idea_vectors true stSample [envFail, envGood] =
      ((VectorService.handle_similar_ideas true stSample envFail.queryMatches).1,
        [VectorService.LoopEvent.raisedOnUpsert envFail.idea.title], true) :=
  (vector_failure_isolation_amended true stSample envFail [envGood]).2
    (by decide) rfl rfl

theorem dedupGo_congr (hash_url : String → String) :
    ∀ (urls s1 s2 : List String), (∀ x, x ∈ s1 ↔ x ∈ s2) →
      URLService.dedupGo hash_url s1 urls = URLService.dedupGo hash_url s2 urls := by
  intro urls
  induction urls with
  | nil => intro s1 s2 _; rfl
  | cons u rest ih =>
      intro s1 s2 h
      simp only [URLService.dedupGo]
      by_cases hu : hash_url u ∈ s1
      · rw [if_pos hu, if_pos ((h _).mp hu)]
        exact ih s1 s2 h
      · rw [if_neg hu, if_neg (fun hc => hu ((h _).mpr hc))]
        refine congrArg (u :: ·) (ih _ _ ?_)
        intro x
        simp [List.mem_cons, h x]

theorem dedupGo_filter_of_mem (hash_url : String → String) (h : String) :
    ∀ (urls seen : List String), h ∈ seen →
      URLService.dedupGo hash_url seen
        (urls.filter (fun v => decide (hash_url v ≠ h))) =
      URLService.dedupGo hash_url seen urls := by
  intro urls
  induction urls with
  | nil => intro seen _; rfl
  | cons u rest ih =>
      intro seen hs
      by_cases hu : hash_url u = h
      · rw [List.filter_cons_of_neg (by simp [hu])]
        simp only [URLService.dedupGo]
        rw [if_pos (hu ▸ hs)]
        exact ih seen hs
      · rw [List.filter_cons_of_pos (by simp [hu])]
        simp only [URLService.dedupGo]
        by_cases hmem : hash_url u ∈ seen
        · rw [if_pos hmem, if_pos hmem]
          exact ih seen hs
        · rw [if_neg hmem, if_neg hmem]
          exact congrArg (u :: ·) (ih _ (List.mem_cons_of_mem _ hs))

theorem dedupGo_drop_head (hash_url : String → String) (h : String) :
    ∀ (urls seen : List String), (∀ v ∈ urls, hash_url v ≠ h) →
      URLService.dedupGo hash_url (h :: seen) urls =
        URLService.dedupGo hash_url seen urls := by
  intro urls
  induction urls with
  | nil => intro seen _; rfl
  | cons u rest ih =>
      intro seen hall
      have hne : hash_url u ≠ h := hall u (by simp)
      simp only [URLService.dedupGo]
      by_cases hmem : hash_url u ∈ seen
      · rw [if_pos (List.mem_cons_of_mem _ hmem), if_pos hmem]
        exact ih seen (fun v hv => hall v (by simp [hv]))
      · rw [if_neg (by simp [hne, hmem]), if_neg hmem]
        refine congrArg (u :: ·) ?_
        rw [dedupGo_congr hash_url rest (hash_url u :: h :: seen)
          (h :: hash_url u :: seen) (fun x => by simp [List.mem_cons, or_left_comm])]
        exact ih (hash_url u :: seen) (fun v hv => hall v (by simp [hv]))

theorem dedupGo_hash_not_mem (hash_url : String → String) :
    ∀ (urls seen : List String) (v : String),
      v ∈ URLService.dedupGo hash_url seen urls → hash_url v ∉ seen := by
  intro urls
  induction urls with
  | nil => intro seen v hv; simp [URLService.dedupGo] at hv
  | cons u rest ih =>
      intro seen v hv
      simp only [URLService.dedupGo] at hv
      by_cases hmem : hash_url u ∈ seen
      · rw [if_pos hmem] at hv
        exact ih seen v hv
      · rw [if_neg hmem] at hv
        rcases List.mem_cons.mp hv with rfl | hv2
        · exact hmem
        · intro hc
          exact ih _ v hv2 (List.mem_cons_of_mem _ hc)

theorem dedupGo_hashes_nodup (hash_url : String → String) :
    ∀ (urls seen : List String),
      ((URLService.dedupGo hash_url seen urls).map hash_url).Nodup := by
  intro urls
  induction urls with
  | nil => intro seen; simp [URLService.dedupGo]
  | cons u rest ih =>
      intro seen
      simp only [URLService.dedupGo]
      by_cases hmem : hash_url u ∈ seen
      · rw [if_pos hmem]; exact ih seen
      · rw [if_neg hmem]
        simp only [List.map_cons, List.nodup_cons]
        refine ⟨?_, ih _⟩
        intro hc
        rcases List.mem_map.mp hc with ⟨v, hv, he⟩
        exact dedupGo_hash_not_mem hash_url rest _ v hv (by simp [he])

theorem dedupGo_eq_self (hash_url : String → String) :
    ∀ (ys seen : List String), (∀ y ∈ ys, hash_url y ∉ seen) →
      ((ys.map hash_url).Nodup) →
      URLService.dedupGo hash_url seen ys = ys := by
  intro ys
  induction ys with
  | nil => intro seen _ _; rfl
  | cons y t ih =>
      intro seen hseen hnd
      simp only [List.map_cons, List.nodup_cons] at hnd
      simp only [URLService.dedupGo]
      rw [if_neg (hseen y (by simp))]
      refine congrArg (y :: ·) (ih (hash_url y :: seen) ?_ hnd.2)
      intro z hz
      simp only [List.mem_cons]
      rintro (hzy | hzs)
      · exact hnd.1 (hzy ▸ List.mem_map_of_mem hash_url hz)
      · exact hseen z (by simp [hz]) hzs

theorem dedupGo_sublist (hash_url : String → String) :
    ∀ (urls seen : List String),
      (URLService.dedupGo hash_url seen urls).Sublist urls := by
  intro urls
  induction urls with
  | nil => intro seen; simp [URLService.dedupGo]
  | cons u rest ih =>
      intro seen
      simp only [URLService.dedupGo]
      by_cases hmem : hash_url u ∈ seen
      · rw [if_pos hmem]
        exact (ih seen).cons u
      · rw [if_neg hmem]
        exact (ih _).cons₂ u

theorem filter_contract_absorb (hash_url : String → String)
    (ledger : List String) (h : String) (hl : h ∈ ledger) :
    ∀ urls, URLService.filter_contract hash_url ledger
        (urls.filter (fun v => decide (hash_url v ≠ h))) =
      URLService.filter_contract hash_url ledger urls
  | [] => by rw [List.filter_nil]
  | w :: t => by
      by_cases hw : hash_url w = h
      · have hwl : hash_url w ∈ ledger := hw ▸ hl
        rw [List.filter_cons_of_neg (by simp [hw])]
        conv_rhs => rw [URLService.filter_contract, if_pos hwl]
        exact filter_contract_absorb hash_url ledger h hl t
      · rw [List.filter_cons_of_pos (by simp [hw])]
        by_cases hwl : hash_url w ∈ ledger
        · rw [URLService.filter_contract, if_pos hwl]
          conv_rhs => rw [URLService.filter_contract, if_pos hwl]
          exact filter_contract_absorb hash_url ledger h hl t
        · rw [URLService.filter_contract, if_neg hwl]
          conv_rhs => rw [URLService.filter_contract, if_neg hwl]
          refine congrArg (w :: ·) ?_
          have e1 : (t.filter (fun v => decide (hash_url v ≠ h))).filter
                (fun v => decide (hash_url v ≠ hash_url w))
              = (t.filter (fun v => decide (hash_url v ≠ hash_url w))).filter
                (fun v => decide (hash_url v ≠ h)) := by
            rw [List.filter_filter, List.filter_filter]
            exact List.filter_congr (fun x _ => Bool.and_comm _ _)
          rw [e1]
          exact filter_contract_absorb hash_url ledger h hl
            (t.filter (fun v => decide (hash_url v ≠ hash_url w)))
termination_by urls => urls.length
decreasing_by
  all_goals simp only [List.length_cons]
  · omega
  · omega
  · exact Nat.lt_succ_of_le (List.length_filter_le _ _)

theorem pipeline_filter_eq_contract (hash_url : String → String)
    (ledger : List String) :
    ∀ urls, URLService.pipeline_filter hash_url urls ledger =
      URLService.filter_contract hash_url ledger urls
  | [] => by
      simp [URLService.pipeline_filter, URLService.deduplicate_urls,
        URLService.dedupGo, URLService.deduplicate_urls_from_all_urls,
        URLService.filter_contract]
  | u :: rest => by
      have hdedup : URLService.dedupGo hash_url [] (u :: rest) =
          u :: URLService.dedupGo hash_url []
            (rest.filter (fun v => decide (hash_url v ≠ hash_url u))) := by
        simp only [URLService.dedupGo]
        rw [if_neg (List.not_mem_nil _)]
        refine congrArg (u :: ·) ?_
        rw [← dedupGo_filter_of_mem hash_url (hash_url u) rest [hash_url u] (by simp)]
        exact dedupGo_drop_head hash_url (hash_url u) _ [] (fun v hv => by
          have hfv := (List.mem_filter.mp hv).2
          simpa using hfv)
      have hrec := pipeline_filter_eq_contract hash_url ledger
        (rest.filter (fun v => decide (hash_url v ≠ hash_url u)))
      simp only [URLService.pipeline_filter, URLService.deduplicate_urls,
        URLService.deduplicate_urls_from_all_urls] at hrec ⊢
      rw [hdedup]
      by_cases hul : hash_url u ∈ ledger
      · rw [List.filter_cons_of_neg (by simp [hul])]
        rw [hrec]
        rw [filter_contract_absorb hash_url ledger (hash_url u) hul rest]
        conv_rhs => rw [URLService.filter_contract, if_pos hul]
      · rw [List.filter_cons_of_pos (by simp [hul])]
        rw [hrec]
        conv_rhs => rw [URLService.filter_contract, if_neg hul]
termination_by urls => urls.length
decreasing_by
  simp only [List.length_cons]
  exact Nat.lt_succ_of_le (List.length_filter_le _ _)

/-- C4: the composed URL filter of the pipeline (intra-batch deduplication
keyed by the URL fingerprint followed by removal of ledger-seen
fingerprints, both pure functions of their inputs with no ledger mutation)
equals the contract of keeping only the first occurrence per fingerprint
and dropping every URL whose fingerprint is in the ledger; the output is a
subsequence of the input (relative order preserved); and on the concrete
scenario of 10 URLs with 3 exact duplicates and 2 distinct URLs already in
the ledger, exactly 5 URLs come out. -/
theorem url_filter_contract_and_scenario :
    (∀ (hash_url : String → String) (ledger urls : List String),
      URLService.pipeline_filter hash_url urls ledger =
        URLService.filter_contract hash_url ledger urls ∧
      (URLService.pipeline_filter hash_url urls ledger).Sublist urls) ∧
    URLService.pipeline_filter (fun s => s)
        ["u1", "u2", "u3", "u1", "u4", "u5", "u2", "u6", "u7", "u1"]
        ["u1", "u4"]
      = ["u2", "u3", "u5", "u6", "u7"] ∧
    (["u1", "u2", "u3", "u1", "u4", "u5", "u2", "u6", "u7", "u1"] :
      List String).length = 10 ∧
    (["u2", "u3", "u5", "u6", "u7"] : List String).length = 5 := by
  refine ⟨fun hash_url ledger urls => ⟨pipeline_filter_eq_contract hash_url ledger urls, ?_⟩,
    by decide, by decide, by decide⟩
  exact (List.filter_sublist _).trans (dedupGo_sublist hash_url urls [])

/-- C8: the intra-batch deduplication filter is idempotent (running it on
its own output returns the output unchanged), and re-filtering against the
same ledger fingerprint set removes nothing further. -/
theorem dedup_filter_idempotent (hash_url : String → String)
    (urls seen : List String) :
    URLService.deduplicate_urls hash_url
        (URLService.deduplicate_urls hash_url urls)
      = URLService.deduplicate_urls hash_url urls ∧
    URLService.deduplicate_urls_from_all_urls hash_url
        (URLService.deduplicate_urls_from_all_urls hash_url urls seen) seen
      = URLService.deduplicate_urls_from_all_urls hash_url urls seen := by
  constructor
  · exact dedupGo_eq_self hash_url _ [] (by simp)
      (dedupGo_hashes_nodup hash_url urls [])
  · simp only [URLService.deduplicate_urls_from_all_urls, List.filter_filter]
    exact List.filter_congr (fun x _ => Bool.and_self _)

end Soochi
